import Mathlib

/-!
Verification of the natural-language specification of the VibesTribe kb-site
repository against its source.  The repository is a set of near-duplicate
single-page front-ends (src/src/App.tsx and the unnamed iterations
part_002/part_003/part_004) that fetch a JSON knowledge base, normalize the
records, filter and sort them, and render cards.

JavaScript strings are modelled as lists of code points (`JStr`), JSON
documents as the inductive `Json`, and the relevant functions of each source
file are translated here one for one.  Proof targets are the claims C1..C10
about normalization, filtering, sorting, extraction, load fallback and
cancellation.
-/

/-- A JavaScript string, modelled as its list of code points. -/
abbrev JStr := List Nat

/-- Code points of a Lean string literal, used to write concrete `JStr` values. -/
def cp (s : String) : JStr := s.data.map Char.toNat

/-- The JavaScript whitespace class: the code points matched by `\s` and
removed by `String.prototype.trim` (ASCII whitespace, NBSP, Ogham space mark,
the U+2000..U+200A range, line/paragraph separators, narrow and medium
mathematical spaces, ideographic space, and the BOM). -/
def jsWhite (c : Nat) : Bool :=
  c == 9 || c == 10 || c == 11 || c == 12 || c == 13 || c == 32 || c == 160 ||
    c == 5760 || decide (8192 ≤ c ∧ c ≤ 8202) || c == 8232 || c == 8233 ||
    c == 8239 || c == 8287 || c == 12288 || c == 65279

/-- Separator class of the regex `/[-_\s]/` in `normalizeCollection`
(part_004 line 42): hyphen, underscore, or any JS whitespace code point. -/
def sepCh (c : Nat) : Bool :=
  c == 45 || c == 95 || jsWhite c

/-- Decimal digit test, the character class of the regex on part_004 line 40. -/
def digCh (c : Nat) : Bool := decide (48 ≤ c ∧ c ≤ 57)

/-- Whitespace removed by `String.prototype.trim`. -/
def wsCh (c : Nat) : Bool := jsWhite c

/-- `toUpperCase` on one code point (ASCII range, as used by the sources). -/
def upCh (c : Nat) : Nat := if 97 ≤ c ∧ c ≤ 122 then c - 32 else c

/-- `toLowerCase` on one code point (ASCII range, as used by the sources). -/
def downCh (c : Nat) : Nat := if 65 ≤ c ∧ c ≤ 90 then c + 32 else c

/-- `String.prototype.toLowerCase`. -/
def jsLower (s : JStr) : JStr := s.map downCh

/-- `String.prototype.trim`. -/
def jsTrim (s : JStr) : JStr :=
  ((s.dropWhile wsCh).reverse.dropWhile wsCh).reverse

/-- `value.split(regex)` for a single-character separator class: the list of
chunks between separator occurrences, empty chunks included (as in JS). -/
def jsSplit : JStr → List JStr
  | [] => [[]]
  | c :: rest =>
    if sepCh c then [] :: jsSplit rest
    else
      match jsSplit rest with
      | [] => [[c]]
      | seg :: segs => (c :: seg) :: segs

/-- `segment.charAt(0).toUpperCase() + segment.slice(1)` (part_004 line 44). -/
def titleSeg : JStr → JStr
  | [] => []
  | c :: rest => upCh c :: rest

/-- `array.join(" ")`. -/
def joinSp : List JStr → JStr
  | [] => []
  | [x] => x
  | x :: xs => x ++ 32 :: joinSp xs

/-- A value that `COLLECTION_LABELS[key]` (and hence `normalizeCollection`)
can produce: one of the table's own string labels, or a member inherited
from `Object.prototype` — a plain object literal keeps its prototype, so
keys such as `constructor` or `toString` look up the inherited function (for
`__proto__`, the prototype object).  Inherited members are not strings;
calling `.toLowerCase()` on them throws. -/
inductive CollVal where
  | str (s : JStr)
  | inherited (key : JStr)
deriving DecidableEq

/-- The property names a plain object literal inherits from
`Object.prototype`. -/
def protoKeys : List JStr :=
  [cp "constructor", cp "hasOwnProperty", cp "isPrototypeOf",
    cp "propertyIsEnumerable", cp "toLocaleString", cp "toString", cp "valueOf",
    cp "__defineGetter__", cp "__defineSetter__", cp "__lookupGetter__",
    cp "__lookupSetter__", cp "__proto__"]

/-- The lookup `COLLECTION_LABELS[key]` of part_004 lines 30-34, applied to
an already-lowercased key: the three own keys first, then the prototype
chain (`Object.prototype` members), then `undefined`. -/
def collectionLabel (s : JStr) : Option CollVal :=
  if s = cp "vibeflow" then some (.str (cp "Vibeflow"))
  else if s = cp "knowledgebase" then some (.str (cp "Knowledgebase"))
  else if s = cp "research" then some (.str (cp "Research"))
  else if s ∈ protoKeys then some (.inherited s)
  else none

/-- Whether a lookup result is an inherited `Object.prototype` member. -/
def inheritedHit : Option CollVal → Bool
  | some (.inherited _) => true
  | _ => false

/-- The test `/^\d+$/.test(value)` of part_004 line 40. -/
def regexDigits (s : JStr) : Bool := !(s.isEmpty) && s.all digCh

/-- The title-casing fallback of part_004 lines 41-45:
`value.split(/[-_\s]/).filter(Boolean).map(titleSeg).join(" ")`. -/
def tcase (v : JStr) : JStr :=
  joinSp (((jsSplit v).filter (fun seg => !seg.isEmpty)).map titleSeg)

/-- `normalizeCollection` of part_004 lines 36-46.  `none` models a missing
(`undefined`) argument; the empty string is falsy, so both give "Misc".  The
truthiness test `if (COLLECTION_LABELS[lower])` succeeds for every defined
lookup result — the own values are non-empty strings and the inherited
members are functions or the prototype object, all truthy — so a `some`
lookup is returned as is (a `CollVal.inherited` result is the program
returning a non-string value). -/
def normalizeCollection : Option JStr → CollVal
  | none => .str (cp "Misc")
  | some v =>
    if v = [] then .str (cp "Misc")
    else
      match collectionLabel (jsLower v) with
      | some w => w
      | none =>
        if regexDigits v then .str (cp "Collection " ++ v)
        else .str (tcase v)

/-- Applying `normalizeCollection` to one of its own results, as the
idempotence claim does: a string result is fed back in; on an inherited
`Object.prototype` member the call throws (`value.toLowerCase` is not a
function), modelled as `Except.error`. -/
def renormalizeCollection : CollVal → Except Unit CollVal
  | .str s => .ok (normalizeCollection (some s))
  | .inherited _ => .error ()

instance : DecidableEq (Except Unit CollVal) := fun x y =>
  match x, y with
  | .ok a, .ok b =>
    match decEq a b with
    | isTrue h => isTrue (by rw [h])
    | isFalse h => isFalse (fun hc => h (by injection hc))
  | .error a, .error b => isTrue (by cases a; cases b; rfl)
  | .ok _, .error _ => isFalse (fun hc => Except.noConfusion hc)
  | .error _, .ok _ => isFalse (fun hc => Except.noConfusion hc)

/-- Decimal digits of a natural number, with explicit fuel so that the
definition reduces in the kernel; `natDigs` supplies enough fuel. -/
def digsCore : Nat → Nat → JStr
  | 0, _ => []
  | fuel + 1, n => if n < 10 then [48 + n] else digsCore fuel (n / 10) ++ [48 + n % 10]

/-- Decimal representation of a natural number as a `JStr`. -/
def natDigs (n : Nat) : JStr := digsCore (n + 1) n

/-- JavaScript printing of an integral number. -/
def intStr (n : Int) : JStr :=
  if n < 0 then 45 :: natDigs (-n).toNat else natDigs n.toNat

/-- A JSON value as produced by `response.json()`.  String data uses `JStr`. -/
inductive Json where
  | null
  | bool (b : Bool)
  | num (n : Int)
  | str (s : JStr)
  | arr (elems : List Json)
  | obj (fields : List (JStr × Json))

/-- JavaScript truthiness of a JSON value. -/
def truthy : Json → Bool
  | .null => false
  | .bool b => b
  | .num n => n != 0
  | .str s => !s.isEmpty
  | .arr _ => true
  | .obj _ => true

/-- Association-list lookup for object fields. -/
def lookupF : List (JStr × Json) → JStr → Option Json
  | [], _ => none
  | (k, v) :: rest, key => if k = key then some v else lookupF rest key

/-- Property read `x[key]` on a JSON value: fields of objects, `undefined`
(`none`) on every non-object.  (Reading a property of `null` throws in JS;
call sites that can receive `null` model the throw explicitly.) -/
def jsField : Json → JStr → Option Json
  | .obj fields, key => lookupF fields key
  | _, _ => none

/-- `array.join(",")`. -/
def joinComma : List JStr → JStr
  | [] => []
  | [x] => x
  | x :: xs => x ++ 44 :: joinComma xs

mutual

/-- The JavaScript `String(...)` coercion on a JSON value. -/
def jsToString : Json → JStr
  | .null => cp "null"
  | .bool b => if b then cp "true" else cp "false"
  | .num n => intStr n
  | .str s => s
  | .arr l => joinComma (jsStrElems l)
  | .obj _ => cp "[object Object]"

/-- `Array.prototype.toString` stringifies elements, `null` becoming empty. -/
def jsStrElems : List Json → List JStr
  | [] => []
  | .null :: rest => [] :: jsStrElems rest
  | j :: rest => jsToString j :: jsStrElems rest

end

/-- The `value ?? undefined` normalization used on optional fields: a present
`null` collapses to absent. -/
def jsCoalesce : Option Json → Option Json
  | some .null => none
  | o => o

/-!
## src/src/App.tsx: the canonical item shape and `normalize`
-/

/-- The `KBItem` record type of src/src/App.tsx lines 4-13.  `type`,
`summary` and `date` keep whatever non-null JSON value `normalize` passed
through; `tags` and `links` keep raw JSON elements, exactly as the code
does. -/
structure KBItem where
  id : JStr
  project : JStr
  type : Option Json
  title : JStr
  summary : Option Json
  tags : List Json
  date : Option Json
  links : List Json

/-- One element of `normalize` (App.tsx lines 39-48) at map index `i`:
`id` is `String(x.id ?? item_i)`, `project` is `String(x.project ?? 'General')`,
`title` is `String(x.title ?? 'Untitled')`, `tags`/`links` keep arrays only,
and `links` falls back to `[x.url]` when `x.url` is truthy. -/
def normOne (i : Nat) (x : Json) : KBItem where
  id :=
    match jsField x (cp "id") with
    | none => cp "item_" ++ natDigs i
    | some .null => cp "item_" ++ natDigs i
    | some v => jsToString v
  project :=
    match jsField x (cp "project") with
    | none => cp "General"
    | some .null => cp "General"
    | some v => jsToString v
  type := jsCoalesce (jsField x (cp "type"))
  title :=
    match jsField x (cp "title") with
    | none => cp "Untitled"
    | some .null => cp "Untitled"
    | some v => jsToString v
  summary := jsCoalesce (jsField x (cp "summary"))
  tags :=
    match jsField x (cp "tags") with
    | some (.arr ts) => ts
    | _ => []
  date := jsCoalesce (jsField x (cp "date"))
  links :=
    match jsField x (cp "links") with
    | some (.arr ls) => ls
    | _ =>
      match jsField x (cp "url") with
      | some u => if truthy u then [u] else []
      | none => []

/-- `items.map((x, i) => ...)` with the running index made explicit. -/
def normGo (i : Nat) : List Json → List KBItem
  | [] => []
  | x :: rest => normOne i x :: normGo (i + 1) rest

/-- `normalize` of App.tsx lines 38-49 applied to a list of raw records
(named `normalizeKB` here because Mathlib already declares `normalize`). -/
def normalizeKB (items : List Json) : List KBItem := normGo 0 items

/-- Re-reading a canonical item as a raw JSON record, to state idempotence of
`normalize`: every field the item carries is present under its own name,
absent optional fields are omitted. -/
def optField (key : String) (o : Option Json) : List (JStr × Json) :=
  match o with
  | some v => [(cp key, v)]
  | none => []

/-- The JSON object a normalized `KBItem` reads back as. -/
def itemToRaw (it : KBItem) : Json :=
  Json.obj
    ([(cp "id", Json.str it.id), (cp "project", Json.str it.project)] ++
      optField "type" it.type ++
      [(cp "title", Json.str it.title)] ++
      optField "summary" it.summary ++
      [(cp "tags", Json.arr it.tags)] ++
      optField "date" it.date ++
      [(cp "links", Json.arr it.links)])

/-!
## src/src/App.tsx: extraction and the load/fallback state machine
-/

/-- The extraction step of App.tsx lines 72-74 combined with the array use
inside `normalize` line 39: `Array.isArray(data) ? data : data.items ?? []`,
then `(items || []).map`.  Reading `.items` on JSON `null` throws, and
calling `.map` on a truthy non-array throws; both are modelled as
`Except.error` (they land in the surrounding catch). -/
def appExtract : Json → Except Unit (List Json)
  | .arr l => .ok l
  | .null => .error ()
  | d =>
    match jsField d (cp "items") with
    | none => .ok []
    | some .null => .ok []
    | some (.arr l) => .ok l
    | some v => if truthy v then .error () else .ok []

/-- The `LOCAL_FALLBACK` record set of App.tsx lines 21-35. -/
def LOCAL_FALLBACK : List KBItem :=
  [{ id := cp "vf_loop_guard_001"
     project := cp "Vibeflow"
     type := some (.str (cp "lesson"))
     title := cp "Agent Loop Prevention"
     summary := some (.str (cp
       "Prevents recursive agent task failures in agent pipelines. (Local fallback)"))
     tags := [.str (cp "agent"), .str (cp "loop"), .str (cp "safety")]
     date := some (.str (cp "2025-09-17"))
     links := [.str (cp
       "https://github.com/VibesTribe/knowledgebase/blob/main/agents/loop-guard.md")] }]

/-- The view state written by one `load` run of App.tsx: the `items` and
`error` state cells (line 56-57). -/
structure LoadState where
  items : Option (List KBItem)
  error : Option JStr

/-- The catch branch of `load` (App.tsx lines 81-94): prefer a parsable
persisted cache snapshot (no error is set on that path), otherwise the
built-in fallback together with the error message. -/
def catchPath (cache : Option (Except Unit (List KBItem))) : LoadState :=
  match cache with
  | some (.ok l) => { items := some l, error := none }
  | _ =>
    { items := some LOCAL_FALLBACK
      error := some (cp "Online data unavailable — showing fallback data.") }

/-- One run of `load` (App.tsx lines 66-95) that reaches completion without
being cancelled.  `fetched` is the joint outcome of `fetch` + `res.json()`
(an HTTP error status or a parse failure is `Except.error`); `cache` is the
`kb_cache` localStorage entry, with `Except.error` standing for a snapshot
`JSON.parse` rejects.  `setError(null)` runs first, so `error` is `none`
unless the final fallback branch assigns it. -/
def runLoad (fetched : Except Unit Json) (cache : Option (Except Unit (List KBItem))) :
    LoadState :=
  match fetched with
  | .error _ => catchPath cache
  | .ok data =>
    match appExtract data with
    | .error _ => catchPath cache
    | .ok raw =>
      let normalized := normalizeKB raw
      if normalized.isEmpty then { items := some LOCAL_FALLBACK, error := none }
      else { items := some normalized, error := none }

/-!
## Extraction in the other iterations (part_002, part_003, part_004)
-/

/-- The `arr` extraction of part_002 lines 129-133:
`Array.isArray(data) ? data : Array.isArray(data?.bookmarks) ? data.bookmarks : []`.
Optional chaining makes the `bookmarks` read safe on every shape. -/
def arrOf2 (data : Json) : List Json :=
  match data with
  | .arr l => l
  | d =>
    match jsField d (cp "bookmarks") with
    | some (.arr bs) => bs
    | _ => []

/-- The `collection` extraction of part_004 lines 117-121 (same shape test as
part_002, against the `bookmarks` field). -/
def collectionOf (data : Json) : List Json :=
  match data with
  | .arr l => l
  | d =>
    match jsField d (cp "bookmarks") with
    | some (.arr bs) => bs
    | _ => []

/-- The per-bookmark remapping inside the nested branch of part_003 lines
35-43: `id: String(b.id)`, `project: b.collection || "General"`,
`summary: b.summary || ""`, `tags: b.tags || []`,
`date: b.created ? b.created.slice(0, 10) : ""`, `links: b.link ? [b.link] : []`.
A missing `title` would read back as `undefined`; that key is omitted.
`slice` is modelled for string/absent `created` values, the only ones the
claims exercise. -/
def part3map (b : Json) : Json :=
  Json.obj
    ([(cp "id", Json.str
        (match jsField b (cp "id") with
         | some v => jsToString v
         | none => cp "undefined"))] ++
      [(cp "project",
        match jsField b (cp "collection") with
        | some v => if truthy v then v else Json.str (cp "General")
        | none => Json.str (cp "General"))] ++
      (match jsField b (cp "title") with
       | some v => [(cp "title", v)]
       | none => []) ++
      [(cp "summary",
        match jsField b (cp "summary") with
        | some v => if truthy v then v else Json.str []
        | none => Json.str [])] ++
      [(cp "tags",
        match jsField b (cp "tags") with
        | some v => if truthy v then v else Json.arr []
        | none => Json.arr [])] ++
      [(cp "date",
        match jsField b (cp "created") with
        | some (.str s) => Json.str (s.take 10)
        | some v => if truthy v then v else Json.str []
        | none => Json.str [])] ++
      [(cp "links",
        match jsField b (cp "link") with
        | some v => if truthy v then Json.arr [v] else Json.arr []
        | none => Json.arr [])])

/-- The `arr` extraction of part_003 lines 32-44: a top-level array is used
as is, while the nested `bookmarks` branch remaps every record through
`part3map`.  (part_003 reads `data.bookmarks` without optional chaining; the
throw on `null` is not modelled because no claim evaluates it there.) -/
def arrOf3 (data : Json) : List Json :=
  match data with
  | .arr l => l
  | d =>
    match jsField d (cp "bookmarks") with
    | some (.arr bs) => bs.map part3map
    | _ => []

/-!
## part_004: canonical items, filtering and sorting
-/

/-- The `KBItem` record type of part_004 lines 13-22 (the fields the filter
pipeline reads; `summary` folds `null` and `undefined` together because every
use goes through `summary ?? ""`). -/
structure KBItem4 where
  id : Json
  title : JStr
  link : Option JStr
  summary : Option JStr
  tags : List JStr
  created : Option JStr
  collection : Option JStr

/-- Leading substring test: `needle` begins `hay`. -/
def begMatch : JStr → JStr → Bool
  | [], _ => true
  | _ :: _, [] => false
  | a :: as, b :: bs => a == b && begMatch as bs

/-- `hay.includes(needle)`: `needle` occurs contiguously inside `hay`. -/
def includesJ (needle : JStr) : JStr → Bool
  | [] => begMatch needle []
  | c :: rest => begMatch needle (c :: rest) || includesJ needle rest

/-- The `===` comparison of a normalized collection value against the string
selection (part_004 line 163): strings compare by content; an inherited
non-string member is never `===` a string. -/
def cvEq (w : CollVal) (sel : JStr) : Bool :=
  match w with
  | .str t => t = sel
  | .inherited _ => false

/-- The collection filter of part_004 lines 161-165: keep items whose
normalized collection equals the selection, unless the selection is "All". -/
def collectionStage (sel : JStr) (items : List KBItem4) : List KBItem4 :=
  if sel = cp "All" then items
  else items.filter (fun it => cvEq (normalizeCollection it.collection) sel)

/-- The tag filter of part_004 lines 167-171: with an active tag, keep items
one of whose tags is exactly that tag. -/
def tagStage (sel : Option JStr) (items : List KBItem4) : List KBItem4 :=
  match sel with
  | none => items
  | some t => items.filter (fun it => it.tags.any (fun tag => tag == t))

/-- The free-text haystacks of part_004 lines 176-181:
`[item.title, item.summary ?? "", normalizeCollection(item.collection), ...item.tags]`;
only the third entry can be a non-string (inherited) value. -/
def haystacks (it : KBItem4) : List CollVal :=
  [.str it.title, .str (it.summary.getD []), normalizeCollection it.collection] ++
    it.tags.map CollVal.str

/-- One haystack test `value?.toLowerCase().includes(trimmedQuery)` on a
value already known to be a string. -/
def cvMatch (nq : JStr) : CollVal → Bool
  | .str s => includesJ nq (jsLower s)
  | .inherited _ => false

/-- `haystacks.some(value => value?.toLowerCase().includes(trimmedQuery))`
(part_004 lines 182-185): `some` evaluates left to right and short-circuits
on the first hit; a haystack that is an inherited non-string member makes
`value?.toLowerCase()` throw (`?.` only guards `null`/`undefined`), modelled
as `Except.error`. -/
def anyMatch (nq : JStr) : List CollVal → Except Unit Bool
  | [] => .ok false
  | v :: rest =>
    match v with
    | .str s => if includesJ nq (jsLower s) then .ok true else anyMatch nq rest
    | .inherited _ => .error ()

/-- `Array.prototype.filter` with a callback that can throw: elements are
tested left to right and the first throw aborts the whole call. -/
def filterE (pe : α → Except Unit Bool) : List α → Except Unit (List α)
  | [] => .ok []
  | x :: rest =>
    match pe x with
    | .error e => .error e
    | .ok b =>
      match filterE pe rest with
      | .error e => .error e
      | .ok r => .ok (if b then x :: r else r)

/-- The query filter of part_004 lines 173-186: lowercase the trimmed query;
if non-empty, keep items some haystack of which contains it.  The stage
throws when it reaches an item whose collection haystack is an inherited
member and whose title and summary did not already match. -/
def queryStage (query : JStr) (items : List KBItem4) : Except Unit (List KBItem4) :=
  let trimmedQuery := jsLower (jsTrim query)
  if trimmedQuery = [] then .ok items
  else filterE (fun it => anyMatch trimmedQuery (haystacks it)) items

/-- Lexicographic `<=` on code-point lists, the order underlying
`localeCompare` on the ASCII date strings the sources compare. -/
def lexLe : JStr → JStr → Bool
  | [], _ => true
  | _ :: _, [] => false
  | a :: as, b :: bs => if a < b then true else if b < a then false else lexLe as bs

/-- The sort comparator of part_004 line 190 read as a relation: `a` precedes
`b` when `(b.created ?? "").localeCompare(a.created ?? "") <= 0`, i.e. dates
descending with a missing date read as the empty string. -/
def dateGe (a b : KBItem4) : Prop :=
  lexLe (b.created.getD []) (a.created.getD []) = true

instance : DecidableRel dateGe :=
  fun a b => Bool.decEq (lexLe (b.created.getD []) (a.created.getD [])) true

/-- `.slice().sort(comparator)` of part_004 lines 188-190.  JS `sort` is
stable, and every stable sort under a total transitive comparator computes
the same list as insertion sort, which is the model used here. -/
def sortStage (items : List KBItem4) : List KBItem4 :=
  List.insertionSort dateGe items

/-- The full `filteredItems` derivation of part_004 lines 158-191:
collection filter, then tag filter, then query filter, then date sort; a
throw in the query filter aborts the derivation. -/
def filteredItems (sel : JStr) (tag : Option JStr) (query : JStr)
    (items : List KBItem4) : Except Unit (List KBItem4) :=
  match queryStage query (tagStage tag (collectionStage sel items)) with
  | .ok kept => .ok (sortStage kept)
  | .error e => .error e

/-!
## part_004: the cancellable load effect (claim C6)
-/

/-- The view cells the part_004 load effect writes: `items`, `error`,
`loading` (lines 80-82). -/
structure ViewState where
  items : List KBItem4
  error : Option JStr
  loading : Bool

/-- The outcome a single fetch resolves to: a cleaned item list on success,
an error message on failure. -/
abbrev LoadOutcome := Except JStr (List KBItem4)

/-- The state of the loader model: the view cells plus, for every effect run
index, whether that run's `canceled` flag has been set by its cleanup. -/
structure LoaderModel where
  canceled : Nat → Bool
  view : ViewState

/-- Events of the load effect: run `i` starts (the previous run's cleanup
has set its flag and aborted its controller, lines 142-145, and the new run
synchronously does `setLoading(true); setError(null)`, lines 109-110), or
run `i`'s fetch settles with an outcome. -/
inductive LoadEvent where
  | start (i : Nat)
  | settle (i : Nat) (o : LoadOutcome)

/-- State committed by an un-cancelled run (part_004 lines 130-139): success
stores the items, failure stores the message, and `finally` clears
`loading`. -/
def commitView (o : LoadOutcome) (v : ViewState) : ViewState :=
  match o with
  | .ok l => { v with items := l, loading := false }
  | .error msg => { v with error := some msg, loading := false }

/-- One event step.  A settling run whose flag was set changes nothing
(lines 130, 135-138: every write is guarded by the cancellation check). -/
def stepLoad (m : LoaderModel) : LoadEvent → LoaderModel
  | .start i =>
    { canceled := fun j => if j == i then false else true
      view := { m.view with loading := true, error := none } }
  | .settle i o =>
    if m.canceled i then m else { m with view := commitView o m.view }

/-- Run a list of load events. -/
def execLoad (events : List LoadEvent) (m : LoaderModel) : LoaderModel :=
  events.foldl stepLoad m

/-!
## Claim C1: non-empty id and title after normalization
-/

/-- A raw `id`/`title` field value whose `String(...)` coercion cannot be
empty: absent, JSON `null` (both replaced by the default), a number, a
boolean, or a non-empty string.  The spec's "string or number" item fields
fall here exactly when a present string is non-empty. -/
def GoodField : Option Json → Prop
  | none => True
  | some .null => True
  | some (.num _) => True
  | some (.bool _) => True
  | some (.str s) => s ≠ []
  | some (.arr _) => False
  | some (.obj _) => False

theorem natDigs_ne_nil (n : Nat) : natDigs n ≠ [] := by
  simp only [natDigs, digsCore]
  split <;> simp

theorem intStr_ne_nil (n : Int) : intStr n ≠ [] := by
  unfold intStr
  split
  · simp
  · exact natDigs_ne_nil _

theorem item_default_ne_nil (i : Nat) : cp "item_" ++ natDigs i ≠ [] := by
  intro hc
  exact absurd (List.append_eq_nil.mp hc).1 (by decide)

theorem normOne_id_ne_nil (i : Nat) (x : Json)
    (h : GoodField (jsField x (cp "id"))) : (normOne i x).id ≠ [] := by
  simp only [normOne]
  cases hf : jsField x (cp "id") with
  | none => exact item_default_ne_nil i
  | some v =>
    rw [hf] at h
    cases v with
    | null => exact item_default_ne_nil i
    | bool b => cases b <;> simp [jsToString] <;> decide
    | num n => simpa [jsToString] using intStr_ne_nil n
    | str s => simpa [jsToString] using h
    | arr l => exact absurd h (by simp [GoodField])
    | obj f => exact absurd h (by simp [GoodField])

theorem normOne_title_ne_nil (i : Nat) (x : Json)
    (h : GoodField (jsField x (cp "title"))) : (normOne i x).title ≠ [] := by
  simp only [normOne]
  cases hf : jsField x (cp "title") with
  | none => decide
  | some v =>
    rw [hf] at h
    cases v with
    | null => decide
    | bool b => cases b <;> simp [jsToString] <;> decide
    | num n => simpa [jsToString] using intStr_ne_nil n
    | str s => simpa [jsToString] using h
    | arr l => exact absurd h (by simp [GoodField])
    | obj f => exact absurd h (by simp [GoodField])

theorem normGo_nonempty_fields (l : List Json) (i : Nat)
    (h : ∀ x ∈ l, GoodField (jsField x (cp "id")) ∧ GoodField (jsField x (cp "title"))) :
    ∀ it ∈ normGo i l, it.id ≠ [] ∧ it.title ≠ [] := by
  induction l generalizing i with
  | nil => intro it hit; cases hit
  | cons x rest ih =>
    intro it hit
    rcases List.mem_cons.mp hit with hit | hit
    · obtain ⟨h1, h2⟩ := h x (by simp)
      subst hit
      exact ⟨normOne_id_ne_nil i x h1, normOne_title_ne_nil i x h2⟩
    · exact ih (i + 1) (fun y hy => h y (by simp [hy])) it hit

/-- C1, corrected.  Every item `normalize` (App.tsx lines 38-49) places in
the canonical collection has a non-empty `id` and `title`, provided each raw
record's `id` and `title` fields are absent, `null`, numeric, boolean, or
non-empty strings; a missing `id` defaults to `item_` followed by the map
index, and a missing `title` to the placeholder `Untitled`.  (The unqualified
claim fails: a present empty-string `id` or `title` is kept empty, see
`c1_counterexample`.) -/
theorem c1_normalized_ids_nonempty :
    (∀ (l : List Json),
      (∀ x ∈ l, GoodField (jsField x (cp "id")) ∧ GoodField (jsField x (cp "title"))) →
      ∀ it ∈ normalizeKB l, it.id ≠ [] ∧ it.title ≠ []) ∧
    (∀ (i : Nat) (x : Json), jsField x (cp "id") = none →
      (normOne i x).id = cp "item_" ++ natDigs i) ∧
    (∀ (i : Nat) (x : Json), jsField x (cp "title") = none →
      (normOne i x).title = cp "Untitled") := by
  refine ⟨fun l h => normGo_nonempty_fields l 0 h, ?_, ?_⟩
  · intro i x h; simp [normOne, h]
  · intro i x h; simp [normOne, h]

theorem c1_goodRec :
    ∀ x ∈ [Json.obj [(cp "id", Json.num 7)]],
      GoodField (jsField x (cp "id")) ∧ GoodField (jsField x (cp "title")) := by
  intro x hx
  rcases List.mem_singleton.mp hx with rfl
  constructor
  · have h : jsField (Json.obj [(cp "id", Json.num 7)]) (cp "id") = some (Json.num 7) := rfl
    rw [h]; trivial
  · have h : jsField (Json.obj [(cp "id", Json.num 7)]) (cp "title") = none := rfl
    rw [h]; trivial

/-- Witness for `c1_normalized_ids_nonempty` at a concrete record with a
numeric id and a missing title. -/
theorem c1_witness :
    (∀ it ∈ normalizeKB [Json.obj [(cp "id", Json.num 7)]], it.id ≠ [] ∧ it.title ≠ []) ∧
    (normOne 0 (Json.obj [(cp "id", Json.num 7)])).title = cp "Untitled" :=
  ⟨c1_normalized_ids_nonempty.1 [Json.obj [(cp "id", Json.num 7)]] c1_goodRec,
    c1_normalized_ids_nonempty.2.2 0 (Json.obj [(cp "id", Json.num 7)]) rfl⟩

/-- C1 counterexample: the raw record whose `id` and `title` are present but
empty strings is normalized to an item with empty `id` and `title` — `??`
only replaces `null`/`undefined`, so the claim as stated fails on this
well-formed (string-valued) input. -/
theorem c1_counterexample :
    (normalizeKB [Json.obj [(cp "id", Json.str []), (cp "title", Json.str [])]]).map
      (fun it => (it.id, it.title)) = [([], [])] := by decide

/-!
## Claim C3: HTTP failure with a persisted cache snapshot
-/

/-- A concrete one-item cache snapshot. -/
def cachedSnapshot : List KBItem :=
  [{ id := cp "cached_1"
     project := cp "Research"
     type := none
     title := cp "Cached entry"
     summary := none
     tags := []
     date := none
     links := [] }]

/-- C3, corrected.  When the fetch fails and a parsable `kb_cache` snapshot
exists, `load` (App.tsx lines 81-94) displays exactly the cached items — but
the cache-hit branch `return`s before `setError`, and `setError(null)` ran at
the start of the load, so the error message is `none`, not the non-null
message the claim asserts (see `c3_counterexample`). -/
theorem c3_cache_kept_no_error :
    ∀ (l : List KBItem),
      (runLoad (Except.error ()) (some (Except.ok l))).items = some l ∧
      (runLoad (Except.error ()) (some (Except.ok l))).error = none :=
  fun _ => ⟨rfl, rfl⟩

/-- C3 counterexample: HTTP failure with a one-item cached snapshot displays
the N = 1 cached items, yet the error message is `none` — the claim's
"non-null error message is set" is false here. -/
theorem c3_counterexample :
    (runLoad (Except.error ()) (some (Except.ok cachedSnapshot))).items =
        some cachedSnapshot ∧
      (runLoad (Except.error ()) (some (Except.ok cachedSnapshot))).error = none :=
  ⟨rfl, rfl⟩

/-!
## Claim C5: nested bookmarks field versus top-level array
-/

/-- C5, corrected for the iterations whose two branches really coincide:
in part_002 (lines 129-133) and part_004 (lines 117-121) a document
consisting of an object with a `bookmarks` array yields exactly the same
extracted list as the top-level array itself. -/
theorem c5_nested_matches_top :
    ∀ (L : List Json),
      arrOf2 (Json.obj [(cp "bookmarks", Json.arr L)]) = arrOf2 (Json.arr L) ∧
      collectionOf (Json.obj [(cp "bookmarks", Json.arr L)]) = collectionOf (Json.arr L) :=
  fun _ => ⟨rfl, rfl⟩

/-- A raw bookmark record with a numeric id. -/
def c5rec : Json :=
  Json.obj [(cp "id", Json.num 1), (cp "title", Json.str (cp "T")),
    (cp "link", Json.str (cp "u"))]

/-- C5 counterexample: in part_003 (lines 32-44) the nested branch remaps
each record (stringified id, collection-to-project defaulting, created
truncated to a date, link wrapped in links) while the top-level branch keeps
records untouched, so the two shapes do not extract identically: on a record
with a numeric id the results differ. -/
theorem c5_counterexample :
    arrOf3 (Json.obj [(cp "bookmarks", Json.arr [c5rec])]) ≠ arrOf3 (Json.arr [c5rec]) := by
  have e1 : arrOf3 (Json.arr [c5rec]) = [c5rec] := rfl
  have e2 : arrOf3 (Json.obj [(cp "bookmarks", Json.arr [c5rec])]) = [part3map c5rec] := rfl
  rw [e1, e2]
  intro h
  have h1 : part3map c5rec = c5rec := by injection h
  have h2 := congrArg (fun j => match j with | Json.obj f => f.length | _ => 0) h1
  exact absurd h2 (by decide)

/-!
## Claim C7: unrecognized document shapes yield an empty list
-/

/-- C7, corrected.  part_004 (lines 117-121) really maps every document that
is neither a top-level array nor an object with a `bookmarks` array to the
empty list with no error.  App.tsx (lines 71-74) does so only for non-null
documents whose `items` field is absent or falsy: reading `.items` of JSON
`null` throws, and a truthy non-array `items` makes `(items || []).map`
throw, both taking the failure path (see `c7_counterexample`). -/
theorem c7_shape_fallback :
    (∀ (d : Json), (∀ l, d ≠ Json.arr l) →
      (∀ l, jsField d (cp "bookmarks") ≠ some (Json.arr l)) →
      collectionOf d = []) ∧
    (∀ (d : Json), d ≠ Json.null → (∀ l, d ≠ Json.arr l) →
      (∀ v, jsField d (cp "items") = some v → truthy v = false) →
      appExtract d = Except.ok []) ∧
    appExtract Json.null = Except.error () ∧
    appExtract (Json.obj [(cp "items", Json.num 5)]) = Except.error () := by
  refine ⟨?_, ?_, rfl, rfl⟩
  · intro d h1 h2
    cases d with
    | arr l => exact absurd rfl (h1 l)
    | obj f =>
      show (match lookupF f (cp "bookmarks") with
            | some (.arr bs) => bs
            | _ => []) = []
      cases hb : lookupF f (cp "bookmarks") with
      | none => rfl
      | some v =>
        cases v with
        | arr bs => exact absurd hb (h2 bs)
        | null => rfl
        | bool b => rfl
        | num n => rfl
        | str s => rfl
        | obj g => rfl
    | null => rfl
    | bool b => rfl
    | num n => rfl
    | str s => rfl
  · intro d h0 h1 h3
    cases d with
    | arr l => exact absurd rfl (h1 l)
    | null => exact absurd rfl h0
    | obj f =>
      show (match lookupF f (cp "items") with
            | none => Except.ok []
            | some .null => Except.ok []
            | some (.arr l) => Except.ok l
            | some v => if truthy v then Except.error () else Except.ok []) = Except.ok []
      cases hb : lookupF f (cp "items") with
      | none => rfl
      | some v =>
        have hv : truthy v = false := h3 v hb
        cases v with
        | null => rfl
        | arr l => exact absurd hv (by simp [truthy])
        | bool b => simp [hv]
        | num n => simp [hv]
        | str s => simp [hv]
        | obj g => exact absurd hv (by simp [truthy])
    | bool b => rfl
    | num n => rfl
    | str s => rfl

/-- Witness for `c7_shape_fallback` at an empty object and a plain string
document. -/
theorem c7_witness :
    collectionOf (Json.obj []) = [] ∧ appExtract (Json.str (cp "x")) = Except.ok [] :=
  ⟨c7_shape_fallback.1 (Json.obj []) (fun _ h => Json.noConfusion h)
      (fun _ h => Option.noConfusion h),
    c7_shape_fallback.2.1 (Json.str (cp "x")) (fun h => Json.noConfusion h)
      (fun _ h => Json.noConfusion h) (fun _ h => Option.noConfusion h)⟩

/-- C7 counterexample: the successfully parsed document `null` is neither an
array nor an object with the nested field, yet App.tsx takes the failure
path (property read on `null` throws), not the empty-result path. -/
theorem c7_counterexample :
    appExtract Json.null = Except.error () ∧ appExtract Json.null ≠ Except.ok [] :=
  ⟨rfl, fun h => Except.noConfusion h⟩

/-!
## Claim C9: all-digit collection values
-/

/-- An all-digit key misses the label table, both its own keys and the
members inherited from `Object.prototype` (every such name contains a
non-digit character). -/
theorem collectionLabel_digits (s : JStr) (hdig : ∀ c ∈ s, digCh c = true) :
    collectionLabel s = none := by
  have hall : s.all digCh = true := List.all_eq_true.mpr hdig
  have hv : ¬ (s = cp "vibeflow") := fun he => absurd (he ▸ hall) (by decide)
  have hk : ¬ (s = cp "knowledgebase") := fun he => absurd (he ▸ hall) (by decide)
  have hr : ¬ (s = cp "research") := fun he => absurd (he ▸ hall) (by decide)
  have hp : ¬ (s ∈ protoKeys) := by
    intro he
    simp only [protoKeys, List.mem_cons, List.not_mem_nil, or_false] at he
    rcases he with rfl | rfl | rfl | rfl | rfl | rfl | rfl | rfl | rfl | rfl | rfl | rfl <;>
      exact absurd hall (by decide)
  unfold collectionLabel
  rw [if_neg hv, if_neg hk, if_neg hr, if_neg hp]

/-- C9, confirmed.  For every non-empty all-digit collection value, the
label table misses — its own keys and the inherited `Object.prototype`
members all contain non-digit characters — the numeric test fires before
the title-casing fallback, and `normalizeCollection` returns the string
`Collection ` followed by the digits. -/
theorem c9_numeric_collections :
    ∀ (s : JStr), s ≠ [] → (∀ c ∈ s, digCh c = true) →
      normalizeCollection (some s) = CollVal.str (cp "Collection " ++ s) := by
  intro s hne hdig
  have hfix : ∀ c ∈ s, downCh c = c := by
    intro c hc
    have h := hdig c hc
    simp only [digCh, decide_eq_true_eq] at h
    unfold downCh
    rw [if_neg]
    omega
  have hlow : jsLower s = s := by
    unfold jsLower
    rw [List.map_congr_left hfix]
    exact List.map_id s
  have hlab : collectionLabel s = none := collectionLabel_digits s hdig
  have hreg : regexDigits s = true := by
    simp only [regexDigits, Bool.and_eq_true, Bool.not_eq_true', List.isEmpty_eq_false,
      List.all_eq_true]
    exact ⟨hne, hdig⟩
  show (if s = [] then CollVal.str (cp "Misc")
      else
        match collectionLabel (jsLower s) with
        | some w => w
        | none =>
          if regexDigits s then CollVal.str (cp "Collection " ++ s)
          else CollVal.str (tcase s)) =
      CollVal.str (cp "Collection " ++ s)
  rw [if_neg hne, hlow, hlab, if_pos hreg]

/-- Witness for `c9_numeric_collections` at the value `123`. -/
theorem c9_witness :
    cp "123" ≠ [] ∧
      normalizeCollection (some (cp "123")) = CollVal.str (cp "Collection " ++ cp "123") :=
  ⟨by decide, c9_numeric_collections (cp "123") (by decide) (by decide)⟩

/-!
## Claim C2: free-text query matching
-/

/-- `some` over haystacks that are all strings never throws and computes the
left-to-right disjunction of the matches. -/
theorem anyMatch_ok (nq : JStr) (vs : List CollVal)
    (h : ∀ v ∈ vs, ∃ s, v = CollVal.str s) :
    anyMatch nq vs = Except.ok (vs.any (cvMatch nq)) := by
  induction vs with
  | nil => rfl
  | cons v rest ih =>
    obtain ⟨s, rfl⟩ := h v (by simp)
    have hr := ih (fun w hw => h w (by simp [hw]))
    by_cases hm : includesJ nq (jsLower s) = true
    · simp [anyMatch, cvMatch, hm]
    · have hm' : includesJ nq (jsLower s) = false := by
        revert hm
        cases includesJ nq (jsLower s) <;> simp
      simp [anyMatch, cvMatch, hm', hr]

/-- A throwing filter whose callback succeeds on every element of the list
computes the plain filter of the underlying predicate. -/
theorem filterE_ok (pe : α → Except Unit Bool) (p : α → Bool) :
    ∀ (l : List α), (∀ x ∈ l, pe x = Except.ok (p x)) →
      filterE pe l = Except.ok (l.filter p) := by
  intro l
  induction l with
  | nil => intro _; rfl
  | cons x rest ih =>
    intro h
    have hx := h x (by simp)
    have hr := ih (fun y hy => h y (by simp [hy]))
    cases hpx : p x <;> simp [filterE, hx, hr, hpx, List.filter_cons]

/-- The tag haystacks match exactly when some tag contains the query. -/
theorem tags_any_match (nq : JStr) (tags : List JStr) :
    ((tags.map CollVal.str).any (cvMatch nq) = true) ↔
      ∃ t ∈ tags, includesJ nq (jsLower t) = true := by
  simp only [List.any_eq_true, List.mem_map]
  constructor
  · rintro ⟨v, ⟨t, ht, rfl⟩, hm⟩
    exact ⟨t, ht, hm⟩
  · rintro ⟨t, ht, hm⟩
    exact ⟨CollVal.str t, ⟨t, ht, rfl⟩, hm⟩

/-- The full haystack disjunction of an item whose normalized collection is
the string `s0`. -/
theorem haystacks_any (nq : JStr) (it : KBItem4) (s0 : JStr)
    (hs0 : normalizeCollection it.collection = CollVal.str s0) :
    ((haystacks it).any (cvMatch nq) = true) ↔
      (includesJ nq (jsLower it.title) = true ∨
       includesJ nq (jsLower (it.summary.getD [])) = true ∨
       includesJ nq (jsLower s0) = true ∨
       ∃ t ∈ it.tags, includesJ nq (jsLower t) = true) := by
  simp only [haystacks, List.any_append, List.any_cons, List.any_nil, Bool.or_eq_true,
    Bool.or_false, cvMatch, hs0, tags_any_match]
  tauto

/-- C2, corrected, against part_004 lines 173-186.  For a non-blank query
and a collection every item of which has a string-valued normalized category
(its category does not collide with an inherited `Object.prototype` member),
the query stage succeeds and keeps an item exactly when the lowercased
trimmed query occurs inside the lowercased title, the lowercased summary
(empty when absent), the lowercased normalized category string, or some
lowercased tag.  Unqualified, the claim fails: an item whose category
normalizes to an inherited member makes the filter throw when title and
summary miss, so no visible subset is produced (see `c2_counterexample`);
the App.tsx iteration's query filter also omits the category haystack. -/
theorem c2_query_match :
    ∀ (query : JStr) (items : List KBItem4),
      jsTrim query ≠ [] →
      (∀ x ∈ items, ∃ s, normalizeCollection x.collection = CollVal.str s) →
      ∃ kept, queryStage query items = Except.ok kept ∧
        ∀ it ∈ items,
          (it ∈ kept ↔
            (includesJ (jsLower (jsTrim query)) (jsLower it.title) = true ∨
             includesJ (jsLower (jsTrim query)) (jsLower (it.summary.getD [])) = true ∨
             (∃ s, normalizeCollection it.collection = CollVal.str s ∧
               includesJ (jsLower (jsTrim query)) (jsLower s) = true) ∨
             ∃ t ∈ it.tags, includesJ (jsLower (jsTrim query)) (jsLower t) = true)) := by
  intro q items hq hcoll
  have hne : ¬ (jsLower (jsTrim q) = []) := by
    simp only [jsLower, List.map_eq_nil_iff]
    exact hq
  refine ⟨items.filter (fun it => (haystacks it).any (cvMatch (jsLower (jsTrim q)))), ?_, ?_⟩
  · simp only [queryStage]
    rw [if_neg hne]
    apply filterE_ok
    intro x hx
    apply anyMatch_ok
    intro v hv
    simp only [haystacks, List.mem_append, List.mem_cons, List.not_mem_nil, or_false,
      List.mem_map] at hv
    rcases hv with (rfl | rfl | rfl) | ⟨t, _, rfl⟩
    · exact ⟨x.title, rfl⟩
    · exact ⟨x.summary.getD [], rfl⟩
    · exact hcoll x hx
    · exact ⟨t, rfl⟩
  · intro it hit
    obtain ⟨s0, hs0⟩ := hcoll it hit
    rw [List.mem_filter, haystacks_any (jsLower (jsTrim q)) it s0 hs0]
    constructor
    · rintro ⟨_, h1 | h2 | h3 | h4⟩
      · exact Or.inl h1
      · exact Or.inr (Or.inl h2)
      · exact Or.inr (Or.inr (Or.inl ⟨s0, hs0, h3⟩))
      · exact Or.inr (Or.inr (Or.inr h4))
    · intro h
      refine ⟨hit, ?_⟩
      rcases h with h1 | h2 | ⟨s1, hs1, h3⟩ | h4
      · exact Or.inl h1
      · exact Or.inr (Or.inl h2)
      · have e : s1 = s0 := CollVal.str.inj (hs1.symm.trans hs0)
        exact Or.inr (Or.inr (Or.inl (e ▸ h3)))
      · exact Or.inr (Or.inr (Or.inr h4))

/-- A concrete item carrying the tag `loop` whose collection value collides
with the inherited `constructor` member. -/
def c2bad : KBItem4 :=
  { id := Json.str (cp "b1")
    title := cp "Agent Strategies"
    link := none
    summary := none
    tags := [cp "loop"]
    created := none
    collection := some (cp "constructor") }

/-- A concrete item carrying the tag `loop` with an ordinary collection. -/
def c2good : KBItem4 :=
  { id := Json.str (cp "b2")
    title := cp "Agent Strategies"
    link := none
    summary := none
    tags := [cp "loop"]
    created := none
    collection := none }

/-- C2 counterexample: for the non-blank query `loop` and an item carrying
the tag `loop` — which the claim says must be in the visible subset — whose
collection value is `constructor`, the normalized category is the inherited
`Object.prototype` member, `value?.toLowerCase()` throws on it after title
and summary miss, and the query stage aborts instead of keeping the item. -/
theorem c2_counterexample :
    queryStage (cp "loop") [c2bad] = Except.error () ∧
      jsTrim (cp "loop") ≠ [] ∧
      includesJ (jsLower (jsTrim (cp "loop"))) (jsLower (cp "loop")) = true :=
  ⟨rfl, by decide, by decide⟩

/-- Witness for `c2_query_match`: the query ` Loop ` (non-blank after trim)
against a singleton collection whose item carries the tag `loop` and a
string-valued category. -/
theorem c2_witness :
    ∃ kept, queryStage (cp " Loop ") [c2good] = Except.ok kept ∧
      ∀ it ∈ [c2good],
        (it ∈ kept ↔
          (includesJ (jsLower (jsTrim (cp " Loop "))) (jsLower it.title) = true ∨
           includesJ (jsLower (jsTrim (cp " Loop "))) (jsLower (it.summary.getD [])) = true ∨
           (∃ s, normalizeCollection it.collection = CollVal.str s ∧
             includesJ (jsLower (jsTrim (cp " Loop "))) (jsLower s) = true) ∨
           ∃ t ∈ it.tags, includesJ (jsLower (jsTrim (cp " Loop "))) (jsLower t) = true)) :=
  c2_query_match (cp " Loop ") [c2good] (by decide)
    (fun x hx => by
      rcases List.mem_singleton.mp hx with rfl
      exact ⟨cp "Misc", rfl⟩)

/-!
## Claim C4: date-descending sort
-/

theorem lexLe_total : ∀ (x y : JStr), lexLe x y = true ∨ lexLe y x = true := by
  intro x
  induction x with
  | nil => intro y; left; rfl
  | cons a as ih =>
    intro y
    cases y with
    | nil => right; rfl
    | cons b bs =>
      by_cases h1 : a < b
      · left; simp [lexLe, h1]
      · by_cases h2 : b < a
        · right; simp [lexLe, h2]
        · rcases ih bs with h | h
          · left; simp [lexLe, h1, h2, h]
          · right; simp [lexLe, h1, h2, h]

theorem lexLe_trans :
    ∀ (x y z : JStr), lexLe x y = true → lexLe y z = true → lexLe x z = true := by
  intro x
  induction x with
  | nil => intro y z _ _; rfl
  | cons a as ih =>
    intro y z hxy hyz
    cases y with
    | nil => simp [lexLe] at hxy
    | cons b bs =>
      cases z with
      | nil => simp [lexLe] at hyz
      | cons c cs =>
        by_cases h1 : a < b
        · by_cases h2 : b < c
          · have : a < c := Nat.lt_trans h1 h2
            simp [lexLe, this]
          · by_cases h3 : c < b
            · simp [lexLe, h2, h3] at hyz
            · have hbc : b = c := by omega
              subst hbc
              simp [lexLe, h1]
        · by_cases h1' : b < a
          · simp [lexLe, h1, h1'] at hxy
          · have hab : a = b := by omega
            subst hab
            simp only [lexLe, Nat.lt_irrefl, if_false] at hxy
            by_cases h2 : a < c
            · simp [lexLe, h2]
            · by_cases h3 : c < a
              · simp [lexLe, h2, h3] at hyz
              · have hac : a = c := by omega
                subst hac
                simp only [lexLe, Nat.lt_irrefl, if_false] at hyz ⊢
                exact ih bs cs hxy hyz

instance : IsTotal KBItem4 dateGe :=
  ⟨fun a b => lexLe_total (b.created.getD []) (a.created.getD [])⟩

instance : IsTrans KBItem4 dateGe :=
  ⟨fun _ _ _ hab hbc => lexLe_trans _ _ _ hbc hab⟩

/-- An item dated `2025-01-01`. -/
def c4a : KBItem4 :=
  { id := Json.str (cp "a"), title := cp "January", link := none, summary := none,
    tags := [], created := some (cp "2025-01-01"), collection := none }

/-- An item dated `2025-06-01`. -/
def c4b : KBItem4 :=
  { id := Json.str (cp "b"), title := cp "June", link := none, summary := none,
    tags := [], created := some (cp "2025-06-01"), collection := none }

/-- An item with no date. -/
def c4c : KBItem4 :=
  { id := Json.str (cp "c"), title := cp "Undated", link := none, summary := none,
    tags := [], created := none, collection := none }

/-- C4, confirmed.  The sort stage (part_004 lines 188-190) produces a
permutation of its input ordered by `dateGe`: later date strings first, a
missing date reading as the empty string, which is the smallest string and
therefore sinks to the bottom under the descending order.  On the three
items dated 2025-01-01, 2025-06-01 and undated it returns exactly
2025-06-01, 2025-01-01, undated. -/
theorem c4_date_sort_desc :
    (∀ (l : List KBItem4), (sortStage l).Sorted dateGe ∧ List.Perm (sortStage l) l) ∧
    sortStage [c4a, c4b, c4c] = [c4b, c4a, c4c] := by
  constructor
  · intro l
    exact ⟨List.sorted_insertionSort dateGe l, List.perm_insertionSort dateGe l⟩
  · rfl

/-!
## Claim C10: the visible subset only rearranges members
-/

theorem collectionStage_sublist (sel : JStr) (items : List KBItem4) :
    List.Sublist (collectionStage sel items) items := by
  unfold collectionStage
  split
  · exact List.Sublist.refl _
  · exact List.filter_sublist _

theorem tagStage_sublist (tag : Option JStr) (items : List KBItem4) :
    List.Sublist (tagStage tag items) items := by
  unfold tagStage
  split
  · exact List.Sublist.refl _
  · exact List.filter_sublist _

/-- A throwing filter that succeeds returns a sublist of its input. -/
theorem filterE_sublist (pe : α → Except Unit Bool) :
    ∀ (l r : List α), filterE pe l = Except.ok r → List.Sublist r l := by
  intro l
  induction l with
  | nil =>
    intro r h
    injection h with h2
    rw [← h2]
  | cons x rest ih =>
    intro r h
    simp only [filterE] at h
    cases hpe : pe x with
    | error e => rw [hpe] at h; simp at h
    | ok b =>
      rw [hpe] at h
      cases hfr : filterE pe rest with
      | error e => rw [hfr] at h; simp at h
      | ok r2 =>
        rw [hfr] at h
        simp only at h
        have hr2 := ih r2 hfr
        injection h with h2
        rw [← h2]
        cases b
        · simpa using hr2.cons x
        · simpa using hr2.cons₂ x

theorem queryStage_sublist (q : JStr) (items r : List KBItem4)
    (h : queryStage q items = Except.ok r) : List.Sublist r items := by
  simp only [queryStage] at h
  by_cases hq : jsLower (jsTrim q) = []
  · rw [if_pos hq] at h
    injection h with h2
    rw [← h2]
  · rw [if_neg hq] at h
    exact filterE_sublist _ items r h

/-- C10, confirmed.  For every canonical collection and every combination of
filter selections, whenever the derivation produces a visible subset it is a
sub-permutation of the collection — filtering drops items and sorting
rearranges the survivors, so every visible item is an unmodified member of
the canonical collection, and the derivation (filters on the original, sort
on a `.slice()` copy) computes a new list without mutating or inventing
items.  (When the query filter throws, no visible subset is produced at
all.) -/
theorem c10_visible_subset :
    (∀ (sel : JStr) (tag : Option JStr) (q : JStr) (items kept : List KBItem4),
      filteredItems sel tag q items = Except.ok kept → List.Subperm kept items) ∧
    (∀ (sel : JStr) (tag : Option JStr) (q : JStr) (items kept : List KBItem4)
      (it : KBItem4), filteredItems sel tag q items = Except.ok kept →
        it ∈ kept → it ∈ items) := by
  have key : ∀ (sel : JStr) (tag : Option JStr) (q : JStr) (items kept : List KBItem4),
      filteredItems sel tag q items = Except.ok kept → List.Subperm kept items := by
    intro sel tag q items kept h
    simp only [filteredItems] at h
    cases hq : queryStage q (tagStage tag (collectionStage sel items)) with
    | error e => rw [hq] at h; simp at h
    | ok mid =>
      rw [hq] at h
      simp only at h
      injection h with h2
      rw [← h2]
      refine ⟨mid, (List.perm_insertionSort dateGe mid).symm, ?_⟩
      exact ((queryStage_sublist _ _ _ hq).trans (tagStage_sublist _ _)).trans
        (collectionStage_sublist _ _)
  exact ⟨key, fun sel tag q items kept it h hit => (key sel tag q items kept h).subset hit⟩

/-- A concrete item for exercising the filter pipeline. -/
def c10item : KBItem4 :=
  { id := Json.str (cp "k1")
    title := cp "Kept item"
    link := none
    summary := none
    tags := []
    created := none
    collection := none }

/-- Witness for `c10_visible_subset`: with no active filters the pipeline on
a singleton collection succeeds keeping its item, and the theorem places it
back in the canonical collection. -/
theorem c10_witness : c10item ∈ ([c10item] : List KBItem4) :=
  c10_visible_subset.2 (cp "All") none [] [c10item] [c10item] c10item rfl
    (List.mem_singleton_self c10item)

/-!
## Claim C6: a superseded load never commits
-/

/-- C6, confirmed.  Start run 1, then run 2 before run 1 settles (run 1's
cleanup has set its `canceled` flag and aborted its controller).  Whatever
outcome `o1` run 1 settles with, and in whichever order the two runs settle,
the final view is exactly run 2's outcome committed over the started view —
run 1's result never reaches `items` or `error`, and the result does not
depend on `o1`. -/
theorem c6_superseded_never_commits :
    ∀ (o1 o2 : LoadOutcome) (m : LoaderModel),
      (execLoad [.start 1, .start 2, .settle 1 o1, .settle 2 o2] m).view =
          commitView o2 { m.view with loading := true, error := none } ∧
      (execLoad [.start 1, .start 2, .settle 2 o2, .settle 1 o1] m).view =
          commitView o2 { m.view with loading := true, error := none } :=
  fun _ _ _ => ⟨rfl, rfl⟩

/-!
## Claim C8: idempotence of normalization
-/

theorem jsCoalesce_ne_null (o : Option Json) : jsCoalesce o ≠ some Json.null := by
  cases o with
  | none => simp [jsCoalesce]
  | some v => cases v <;> simp [jsCoalesce]

theorem jsCoalesce_some (v : Json) (h : v ≠ Json.null) : jsCoalesce (some v) = some v := by
  cases v with
  | null => exact absurd rfl h
  | bool b => rfl
  | num n => rfl
  | str s => rfl
  | arr l => rfl
  | obj f => rfl

/-- Reading a canonical item back through `normalize` reproduces it, as long
as its optional fields do not hold a bare JSON `null` (which `normalize`
never produces). -/
theorem normOne_roundtrip (i : Nat) (it : KBItem)
    (ht : it.type ≠ some Json.null) (hs : it.summary ≠ some Json.null)
    (hd : it.date ≠ some Json.null) :
    normOne i (itemToRaw it) = it := by
  obtain ⟨idv, projectv, tyv, titlev, summaryv, tagsv, datev, linksv⟩ := it
  simp only at ht hs hd
  cases tyv with
  | none =>
    cases summaryv with
    | none =>
      cases datev with
      | none => rfl
      | some dv =>
        have e : normOne i (itemToRaw ⟨idv, projectv, none, titlev, none, tagsv, some dv, linksv⟩) =
            ⟨idv, projectv, none, titlev, none, tagsv, jsCoalesce (some dv), linksv⟩ := rfl
        rw [e, jsCoalesce_some dv (fun h => hd (by rw [h]))]
    | some sv =>
      cases datev with
      | none =>
        have e : normOne i (itemToRaw ⟨idv, projectv, none, titlev, some sv, tagsv, none, linksv⟩) =
            ⟨idv, projectv, none, titlev, jsCoalesce (some sv), tagsv, none, linksv⟩ := rfl
        rw [e, jsCoalesce_some sv (fun h => hs (by rw [h]))]
      | some dv =>
        have e : normOne i (itemToRaw ⟨idv, projectv, none, titlev, some sv, tagsv, some dv, linksv⟩) =
            ⟨idv, projectv, none, titlev, jsCoalesce (some sv), tagsv, jsCoalesce (some dv), linksv⟩ := rfl
        rw [e, jsCoalesce_some sv (fun h => hs (by rw [h])),
          jsCoalesce_some dv (fun h => hd (by rw [h]))]
  | some tv =>
    cases summaryv with
    | none =>
      cases datev with
      | none =>
        have e : normOne i (itemToRaw ⟨idv, projectv, some tv, titlev, none, tagsv, none, linksv⟩) =
            ⟨idv, projectv, jsCoalesce (some tv), titlev, none, tagsv, none, linksv⟩ := rfl
        rw [e, jsCoalesce_some tv (fun h => ht (by rw [h]))]
      | some dv =>
        have e : normOne i (itemToRaw ⟨idv, projectv, some tv, titlev, none, tagsv, some dv, linksv⟩) =
            ⟨idv, projectv, jsCoalesce (some tv), titlev, none, tagsv, jsCoalesce (some dv), linksv⟩ := rfl
        rw [e, jsCoalesce_some tv (fun h => ht (by rw [h])),
          jsCoalesce_some dv (fun h => hd (by rw [h]))]
    | some sv =>
      cases datev with
      | none =>
        have e : normOne i (itemToRaw ⟨idv, projectv, some tv, titlev, some sv, tagsv, none, linksv⟩) =
            ⟨idv, projectv, jsCoalesce (some tv), titlev, jsCoalesce (some sv), tagsv, none, linksv⟩ := rfl
        rw [e, jsCoalesce_some tv (fun h => ht (by rw [h])),
          jsCoalesce_some sv (fun h => hs (by rw [h]))]
      | some dv =>
        have e : normOne i (itemToRaw ⟨idv, projectv, some tv, titlev, some sv, tagsv, some dv, linksv⟩) =
            ⟨idv, projectv, jsCoalesce (some tv), titlev, jsCoalesce (some sv), tagsv, jsCoalesce (some dv), linksv⟩ := rfl
        rw [e, jsCoalesce_some tv (fun h => ht (by rw [h])),
          jsCoalesce_some sv (fun h => hs (by rw [h])),
          jsCoalesce_some dv (fun h => hd (by rw [h]))]

theorem normOne_type_ne_null (i : Nat) (x : Json) :
    (normOne i x).type ≠ some Json.null :=
  jsCoalesce_ne_null _

theorem normOne_summary_ne_null (i : Nat) (x : Json) :
    (normOne i x).summary ≠ some Json.null :=
  jsCoalesce_ne_null _

theorem normOne_date_ne_null (i : Nat) (x : Json) :
    (normOne i x).date ≠ some Json.null :=
  jsCoalesce_ne_null _

theorem normGo_idem (l : List Json) :
    ∀ i, normGo i ((normGo i l).map itemToRaw) = normGo i l := by
  induction l with
  | nil => intro i; rfl
  | cons x rest ih =>
    intro i
    simp only [normGo, List.map]
    rw [normOne_roundtrip i (normOne i x) (normOne_type_ne_null i x)
      (normOne_summary_ne_null i x) (normOne_date_ne_null i x), ih (i + 1)]

theorem downCh_upCh (c : Nat) : downCh (upCh c) = downCh c := by
  unfold upCh downCh
  split_ifs <;> omega

theorem upCh_upCh (c : Nat) : upCh (upCh c) = upCh c := by
  unfold upCh
  split_ifs <;> omega

theorem digCh_upCh (c : Nat) : digCh (upCh c) = digCh c := by
  unfold upCh
  split_ifs with h
  · have h1 : ¬(48 ≤ c - 32 ∧ c - 32 ≤ 57) := by omega
    have h2 : ¬(48 ≤ c ∧ c ≤ 57) := by omega
    simp only [digCh, decide_eq_decide]
    constructor <;> intro hx <;> omega
  · rfl

theorem sepCh_upCh (c : Nat) (h : sepCh c = false) : sepCh (upCh c) = false := by
  unfold upCh
  split_ifs with hr
  · simp only [sepCh, jsWhite, Bool.or_eq_false_iff, beq_eq_false_iff_ne, ne_eq,
      decide_eq_false_iff_not]
    omega
  · exact h

theorem digCh_not_sep (c : Nat) (h : digCh c = true) : sepCh c = false := by
  simp only [digCh, decide_eq_true_eq] at h
  simp only [sepCh, jsWhite, Bool.or_eq_false_iff, beq_eq_false_iff_ne, ne_eq,
    decide_eq_false_iff_not]
  omega

theorem digCh_upCh_fix (c : Nat) (h : digCh c = true) : upCh c = c := by
  simp only [digCh, decide_eq_true_eq] at h
  unfold upCh
  rw [if_neg]
  omega

theorem jsSplit_noSep (l : JStr) (h : ∀ c ∈ l, sepCh c = false) : jsSplit l = [l] := by
  induction l with
  | nil => rfl
  | cons c rest ih =>
    have hc : sepCh c = false := h c (by simp)
    have hr := ih (fun d hd => h d (by simp [hd]))
    simp [jsSplit, hc, hr]

theorem jsSplit_sep_append (l1 l2 : JStr) (c : Nat) (hc : sepCh c = true)
    (h1 : ∀ d ∈ l1, sepCh d = false) :
    jsSplit (l1 ++ c :: l2) = l1 :: jsSplit l2 := by
  induction l1 with
  | nil => simp [jsSplit, hc]
  | cons d rest ih =>
    have hd : sepCh d = false := h1 d (by simp)
    have hr := ih (fun e he => h1 e (by simp [he]))
    simp [jsSplit, hd, hr]

theorem tcase_noSep (c : Nat) (rest : JStr) (h : ∀ d ∈ (c :: rest : JStr), sepCh d = false) :
    tcase (c :: rest) = upCh c :: rest := by
  unfold tcase
  rw [jsSplit_noSep _ h]
  simp [titleSeg, joinSp]

theorem collectionLabel_space (m : JStr) (h : 32 ∈ m) : collectionLabel m = none := by
  have hv : ¬ (m = cp "vibeflow") := fun he => by subst he; revert h; decide
  have hk : ¬ (m = cp "knowledgebase") := fun he => by subst he; revert h; decide
  have hr : ¬ (m = cp "research") := fun he => by subst he; revert h; decide
  have hp : ¬ (m ∈ protoKeys) := by
    intro he
    simp only [protoKeys, List.mem_cons, List.not_mem_nil, or_false] at he
    rcases he with rfl | rfl | rfl | rfl | rfl | rfl | rfl | rfl | rfl | rfl | rfl | rfl <;>
      revert h <;> decide
  unfold collectionLabel
  rw [if_neg hv, if_neg hk, if_neg hr, if_neg hp]

/-- Renormalizing a numeric label `Collection <digits>` fixes it: the space
keeps it out of the label table (own and inherited keys alike), the leading
letter fails the digit test, and title-casing leaves both segments
unchanged. -/
theorem nc_collection_digits (s : JStr) (h0 : s ≠ []) (hall : s.all digCh = true) :
    normalizeCollection (some (cp "Collection " ++ s)) =
      CollVal.str (cp "Collection " ++ s) := by
  have hne : cp "Collection " ++ s ≠ [] := by
    intro hx
    exact absurd (List.append_eq_nil.mp hx).1 (by decide)
  have hsp : 32 ∈ jsLower (cp "Collection " ++ s) := by
    unfold jsLower
    rw [List.map_append]
    exact List.mem_append_left _ (by decide)
  have hlab : collectionLabel (jsLower (cp "Collection " ++ s)) = none :=
    collectionLabel_space _ hsp
  have hreg : ¬ regexDigits (cp "Collection " ++ s) = true := by
    have hC : (cp "Collection ").all digCh = false := by decide
    simp [regexDigits, List.all_append, hC]
  have hdecomp : cp "Collection " ++ s = cp "Collection" ++ 32 :: s := by
    have h32 : cp "Collection " = cp "Collection" ++ [32] := by decide
    rw [h32, List.append_assoc]
    rfl
  have hsplit : jsSplit (cp "Collection " ++ s) = cp "Collection" :: jsSplit s := by
    rw [hdecomp]
    exact jsSplit_sep_append (cp "Collection") s 32 (by decide) (by decide)
  have hsplit2 : jsSplit s = [s] :=
    jsSplit_noSep s (fun d hd => digCh_not_sep d (List.all_eq_true.mp hall d hd))
  obtain ⟨d, rest, rfl⟩ : ∃ d rest, s = d :: rest := by
    cases s with
    | nil => exact absurd rfl h0
    | cons d r => exact ⟨d, r, rfl⟩
  have hup : upCh d = d := digCh_upCh_fix d (List.all_eq_true.mp hall d (by simp))
  have htc : tcase (cp "Collection " ++ d :: rest) = cp "Collection " ++ d :: rest := by
    unfold tcase
    rw [hsplit, hsplit2]
    have hCne : (!(cp "Collection").isEmpty) = true := by decide
    have hCtc : titleSeg (cp "Collection") = cp "Collection" := by decide
    simp only [List.filter, hCne, List.isEmpty_cons, Bool.not_false, List.map, hCtc, titleSeg,
      hup, joinSp]
    exact hdecomp.symm
  show (if cp "Collection " ++ d :: rest = [] then CollVal.str (cp "Misc")
      else
        match collectionLabel (jsLower (cp "Collection " ++ d :: rest)) with
        | some w => w
        | none =>
          if regexDigits (cp "Collection " ++ d :: rest) then
            CollVal.str (cp "Collection " ++ (cp "Collection " ++ d :: rest))
          else CollVal.str (tcase (cp "Collection " ++ d :: rest))) =
      CollVal.str (cp "Collection " ++ d :: rest)
  rw [if_neg hne, hlab, if_neg hreg, htc]

/-- Re-applying `normalizeCollection` to its result is the identity whenever
the original value contains no separator character and its lowercase does
not collide with an inherited `Object.prototype` member (on a collision the
program returns the inherited non-string member and re-application would
throw). -/
theorem nc_idem_sepFree (s : JStr) (hsep : ∀ c ∈ s, sepCh c = false)
    (hproto : inheritedHit (collectionLabel (jsLower s)) = false) :
    renormalizeCollection (normalizeCollection (some s)) =
      Except.ok (normalizeCollection (some s)) := by
  by_cases h0 : s = []
  · subst h0; decide
  · cases hL : collectionLabel (jsLower s) with
    | some w =>
      have hres : normalizeCollection (some s) = w := by
        show (if s = [] then CollVal.str (cp "Misc")
            else
              match collectionLabel (jsLower s) with
              | some w2 => w2
              | none =>
                if regexDigits s then CollVal.str (cp "Collection " ++ s)
                else CollVal.str (tcase s)) = w
        rw [if_neg h0, hL]
      rw [hres]
      rw [hL] at hproto
      have hL2 := hL
      unfold collectionLabel at hL2
      split_ifs at hL2
      · cases hL2; decide
      · cases hL2; decide
      · cases hL2; decide
      · cases hL2
        simp [inheritedHit] at hproto
    | none =>
      by_cases hdig : regexDigits s = true
      · have hall : s.all digCh = true := by
          have h := hdig
          simp only [regexDigits, Bool.and_eq_true] at h
          exact h.2
        have hres : normalizeCollection (some s) = CollVal.str (cp "Collection " ++ s) := by
          show (if s = [] then CollVal.str (cp "Misc")
              else
                match collectionLabel (jsLower s) with
                | some w2 => w2
                | none =>
                  if regexDigits s then CollVal.str (cp "Collection " ++ s)
                  else CollVal.str (tcase s)) =
              CollVal.str (cp "Collection " ++ s)
          rw [if_neg h0, hL, if_pos hdig]
        rw [hres]
        show Except.ok (normalizeCollection (some (cp "Collection " ++ s))) =
          Except.ok (CollVal.str (cp "Collection " ++ s))
        rw [nc_collection_digits s h0 hall]
      · obtain ⟨c, rest, rfl⟩ : ∃ c rest, s = c :: rest := by
          cases s with
          | nil => exact absurd rfl h0
          | cons c r => exact ⟨c, r, rfl⟩
        have hdigf : regexDigits (c :: rest) = false := by
          revert hdig
          cases regexDigits (c :: rest) <;> simp
        have hres : normalizeCollection (some (c :: rest)) = CollVal.str (upCh c :: rest) := by
          show (if (c :: rest : JStr) = [] then CollVal.str (cp "Misc")
              else
                match collectionLabel (jsLower (c :: rest)) with
                | some w2 => w2
                | none =>
                  if regexDigits (c :: rest) then CollVal.str (cp "Collection " ++ (c :: rest))
                  else CollVal.str (tcase (c :: rest))) = CollVal.str (upCh c :: rest)
          rw [if_neg h0, hL, if_neg hdig, tcase_noSep c rest hsep]
        rw [hres]
        have hT0 : (upCh c :: rest : JStr) ≠ [] := by simp
        have hTlow : jsLower (upCh c :: rest) = jsLower (c :: rest) := by
          simp [jsLower, downCh_upCh]
        have hTlab : collectionLabel (jsLower (upCh c :: rest)) = none := by
          rw [hTlow]
          exact hL
        have hTdig : ¬ regexDigits (upCh c :: rest) = true := by
          have he : regexDigits (upCh c :: rest) = regexDigits (c :: rest) := by
            simp [regexDigits, List.all_cons, digCh_upCh]
          rw [he, hdigf]
          simp
        have hTsep : ∀ d ∈ (upCh c :: rest : JStr), sepCh d = false := by
          intro d hd
          rcases List.mem_cons.mp hd with rfl | hd
          · exact sepCh_upCh c (hsep c (by simp))
          · exact hsep d (by simp [hd])
        show Except.ok (normalizeCollection (some (upCh c :: rest))) =
          Except.ok (CollVal.str (upCh c :: rest))
        have hfinal : normalizeCollection (some (upCh c :: rest)) =
            CollVal.str (upCh c :: rest) := by
          show (if (upCh c :: rest : JStr) = [] then CollVal.str (cp "Misc")
              else
                match collectionLabel (jsLower (upCh c :: rest)) with
                | some w2 => w2
                | none =>
                  if regexDigits (upCh c :: rest) then
                    CollVal.str (cp "Collection " ++ (upCh c :: rest))
                  else CollVal.str (tcase (upCh c :: rest))) =
              CollVal.str (upCh c :: rest)
          rw [if_neg hT0, hTlab, if_neg hTdig, tcase_noSep (upCh c) rest hTsep, upCh_upCh]
        rw [hfinal]

/-- C8, corrected.  First half: `normalize` (App.tsx lines 38-49) is
idempotent — reading the normalized items back as raw records and
normalizing again reproduces them exactly.  Second half:
`normalizeCollection` (part_004 lines 36-46) returns an already-normalized
label unchanged for every value free of separator characters (hyphen,
underscore, JS whitespace) whose lowercase does not collide with an
inherited `Object.prototype` member.  Outside those conditions the claim
fails (see `c8_counterexample`): a separator-only value (`-`, or a no-break
space, which `/\s/` matches) normalizes to the empty string, which
renormalizes to `Misc`, and a value such as `constructor` normalizes to the
inherited non-string member, on which re-application throws. -/
theorem c8_normalization_idempotent :
    (∀ (l : List Json), normalizeKB ((normalizeKB l).map itemToRaw) = normalizeKB l) ∧
    (∀ (s : JStr), (∀ c ∈ s, sepCh c = false) →
      inheritedHit (collectionLabel (jsLower s)) = false →
      renormalizeCollection (normalizeCollection (some s)) =
        Except.ok (normalizeCollection (some s))) :=
  ⟨fun l => normGo_idem l 0, nc_idem_sepFree⟩

/-- Witness for `c8_normalization_idempotent` at a concrete record and the
separator-free, collision-free value `research`. -/
theorem c8_witness :
    normalizeKB ((normalizeKB [c5rec]).map itemToRaw) = normalizeKB [c5rec] ∧
    renormalizeCollection (normalizeCollection (some (cp "research"))) =
      Except.ok (normalizeCollection (some (cp "research"))) :=
  ⟨c8_normalization_idempotent.1 [c5rec],
    c8_normalization_idempotent.2 (cp "research") (by decide) (by decide)⟩

/-- C8 counterexample: three already-normalized labels that renormalization
does not fix.  The value `-` (only a separator) normalizes to the empty
string, which renormalizes to `Misc`; the value `constructor` normalizes to
the inherited `Object.prototype` member, and re-applying
`normalizeCollection` to that non-string throws; a no-break space behaves
like `-` because `/\s/` matches it. -/
theorem c8_counterexample :
    renormalizeCollection (normalizeCollection (some (cp "-"))) ≠
        Except.ok (normalizeCollection (some (cp "-"))) ∧
      renormalizeCollection (normalizeCollection (some (cp "constructor"))) =
        Except.error () ∧
      renormalizeCollection (normalizeCollection (some (cp "\u00A0"))) ≠
        Except.ok (normalizeCollection (some (cp "\u00A0"))) :=
  ⟨by decide, rfl, by decide⟩
